import Mathlib

/-!
Verification of the context ranking and extraction engine
(`caas/storage/store.py` and the data model in `caas/models.py`).

Strings are modelled as `List Char`; Python `str.lower` is modelled by
mapping `Char.toLower`, and the Python substring test `a in b` by
`containsSub`.  Python floats are modelled as exact rationals `ℚ`
(every numeric literal appearing in the code and in the claims is a
small decimal, so no claim hinges on binary rounding).  The store,
a Python dict keyed by document id that preserves insertion order,
is modelled as a `List Document` in insertion order with unique ids;
dict lookup is `getDoc` (first match) and the in-place mutation of the
document object held by the dict is modelled by `updateDoc`, which
replaces the first document with the given id.  Python `sorted` with
`reverse=True` is a stable descending sort; it is modelled by
`List.insertionSort` with the relation `wge a b := b.weight ≤ a.weight`,
which places an element before the first existing element that does not
strictly exceed it — the unique stable descending order.
-/

namespace CaaS

/-- DocumentType enum from caas/models.py. -/
inductive DocumentType where
  | legalContract
  | technicalDocumentation
  | sourceCode
  | researchPaper
  | article
  | tutorial
  | apiDocumentation
  | unknown
deriving DecidableEq, Repr

/-- Section model from caas/models.py (fields used by store.py:
title, content, weight).  Remaining fields (tier, importance_score,
start_pos, end_pos, parent_section, chapter) are never read or written
by the code under verification and are omitted. -/
structure Section where
  title : List Char
  content : List Char
  weight : ℚ
deriving DecidableEq, Repr

/-- Document model from caas/models.py (fields used by store.py).
The fields format, metadata and weights are never read or written by
the search and extraction code and are omitted. -/
structure Document where
  id : List Char
  title : List Char
  content : List Char
  detectedType : DocumentType
  sections : List Section
  ingestionTimestamp : Option (List Char)
deriving DecidableEq, Repr

/-- Python str.lower, restricted to the characters the claims use. -/
def lower (s : List Char) : List Char :=
  s.map Char.toLower

/-- Python substring test: `needle in hay`. -/
def containsSub (needle hay : List Char) : Bool :=
  hay.tails.any (fun t => needle.isPrefixOf t)

/-- DocumentStore.get: dict lookup by id (store.py lines 45-55). -/
def getDoc (docs : List Document) (documentId : List Char) : Option Document :=
  docs.find? (fun d => d.id == documentId)

/-- The matching test of DocumentStore.search (store.py lines 113-118):
case-insensitive substring of the query in the document content, the
document title, or any section title. -/
def docMatches (query : List Char) (d : Document) : Bool :=
  containsSub (lower query) (lower d.content) ||
  containsSub (lower query) (lower d.title) ||
  d.sections.any (fun s => containsSub (lower query) (lower s.title))

/-- DocumentStore.search (store.py lines 100-120): iterate the dict
values in insertion order and collect the matching documents.  The
function takes only the query; it computes no score and applies no
re-ranking. -/
def searchStore (query : List Char) (docs : List Document) : List Document :=
  docs.filter (docMatches query)

/-- The descending-weight relation used for ranking: a comes no later
than b when the weight of b does not exceed the weight of a. -/
def wge (a b : Section) : Prop :=
  b.weight ≤ a.weight

instance : DecidableRel wge := fun a b =>
  inferInstanceAs (Decidable (b.weight ≤ a.weight))

instance : IsTotal Section wge :=
  ⟨fun a b => le_total b.weight a.weight⟩

instance : IsTrans Section wge :=
  ⟨fun _ _ _ h1 h2 => le_trans h2 h1⟩

/-- Python `sorted(sections, key=lambda s: s.weight, reverse=True)`:
the stable descending sort by weight (store.py lines 185-189, 199). -/
def sortByWeightDesc (ss : List Section) : List Section :=
  List.insertionSort wge ss

/-- The query boost of store.py lines 193-196: every section whose
content contains the query (case-insensitive) gets weight ×1.5.  In the
source this is an in-place mutation of the shared Section objects, so
it applies equally to the sorted working list and to
document.sections. -/
def boostList (query : List Char) (ss : List Section) : List Section :=
  ss.map (fun s =>
    if containsSub (lower query) (lower s.content) then
      { s with weight := s.weight * 1.5 }
    else s)

/-- The ranked section list extract_context packs (store.py lines
184-199): sort by weight descending; when the query is non-empty,
boost matching sections and re-sort the already-sorted list. -/
def rankSections (query : List Char) (ss : List Section) : List Section :=
  let sorted1 := sortByWeightDesc ss
  if query.isEmpty then sorted1
  else sortByWeightDesc (boostList query sorted1)

/-- The rendered block of one section (store.py line 208):
the Python template is backslash-n, two hashes, a space, the title,
backslash-n, the content, backslash-n. -/
def blockOf (s : Section) : List Char :=
  ['\n', '#', '#', ' '] ++ s.title ++ ['\n'] ++ s.content ++ ['\n']

/-- The ellipsis marker appended to a truncated block. -/
def ellipsis : List Char :=
  ['.', '.', '.']

/-- The packing loop of store.py lines 202-223, phrased with the
remaining character budget (limit = char_limit − total_chars, which
stays non-negative because total_chars only grows by blocks that fit).
A block that fits is appended whole and its title recorded; at the
first block that does not fit, a truncated block plus ellipsis is
appended when more than 100 characters remain, and the loop breaks
either way.  Returns (context characters, titles used). -/
def pack (limit : ℕ) : List Section → List Char × List (List Char)
  | [] => ([], [])
  | s :: rest =>
    let block := blockOf s
    if block.length > limit then
      if limit > 100 then (block.take limit ++ ellipsis, [s.title])
      else ([], [])
    else
      let r := pack (limit - block.length) rest
      (block ++ r.1, s.title :: r.2)

/-- The metadata dict extract_context returns: either the two-key
error dict of line 182 or the six-key dict of lines 225-232.  The
Python weights_applied dict (title → weight, built over the sorted
working list) is modelled as the association list of (title, weight)
pairs in that order; the claims only involve documents with distinct
section titles, where the two agree. -/
inductive Metadata where
  | fault (msg : List Char)
  | ok (documentId : List Char) (documentType : DocumentType)
      (sectionsUsed : List (List Char))
      (weightsApplied : List (List Char × ℚ))
      (totalSections : ℕ) (sectionsIncluded : ℕ)
deriving DecidableEq, Repr

/-- ContextExtractor.extract_context on a fetched document (store.py
lines 184-234).  Returns the (context, metadata) pair together with
the document as it exists after the call: when the query is non-empty
the in-place boost of line 196 has mutated the shared Section objects,
so the stored document now carries the boosted weights. -/
def extractContextDoc (doc : Document) (query : List Char) (maxTokens : ℕ) :
    (List Char × Metadata) × Document :=
  let ranked := rankSections query doc.sections
  let docAfter :=
    if query.isEmpty then doc
    else { doc with sections := boostList query doc.sections }
  let packed := pack (maxTokens * 4) ranked
  ((packed.1,
    Metadata.ok doc.id doc.detectedType packed.2
      (ranked.map (fun s => (s.title, s.weight)))
      doc.sections.length packed.2.length),
   docAfter)

/-- Replace the first document with the given id: the model of writing
back the (possibly mutated) document object held by the dict. -/
def updateDoc (docs : List Document) (documentId : List Char) (nd : Document) :
    List Document :=
  match docs with
  | [] => []
  | d :: ds =>
    if d.id == documentId then nd :: ds
    else d :: updateDoc ds documentId nd

/-- ContextExtractor.extract_context (store.py lines 163-234),
store-level: fetch by id, return the error pair when absent, otherwise
extract; the resulting store reflects any in-place weight mutation. -/
def extractContext (docs : List Document) (documentId query : List Char)
    (maxTokens : ℕ) : (List Char × Metadata) × List Document :=
  match getDoc docs documentId with
  | none => (([], Metadata.fault ("Document not found".toList)), docs)
  | some doc =>
    let r := extractContextDoc doc query maxTokens
    (r.1, updateDoc docs documentId r.2)

/-- The list whose relative order the final ranking preserves on equal
effective scores: the document order itself when no boost pass runs
(empty query), and the boosted first-pass ranking when a non-empty
query triggers the re-sort of the already-sorted working list
(store.py line 199). -/
def rankReference (query : List Char) (ss : List Section) : List Section :=
  if query.isEmpty then ss else boostList query (sortByWeightDesc ss)

/-! ### Concrete instances used by the claims -/

/-- One section whose content matches the query "hi". -/
def c1sec : Section := ⟨['s'], ['h', 'i'], 1⟩

/-- A one-section document stored under id "d". -/
def c1doc : Document := ⟨['d'], ['t'], ['c'], .unknown, [c1sec], none⟩

/-- Matching section, document order first, weight 1. -/
def c2secA : Section := ⟨['a'], ['q', ' ', 's'], 1⟩

/-- Non-matching section, document order second, weight 3/2: the boost
lifts c2secA into an exact tie with it. -/
def c2secB : Section := ⟨['b'], ['z', 'z'], 3 / 2⟩

/-- Two-section document for the boost-tie scenario. -/
def c2doc : Document := ⟨['d', '2'], ['t'], ['c'], .unknown, [c2secA, c2secB], none⟩

/-- Older, stronger match (base weight 13/10, ingested 400 days before
the query), inserted into the store first. -/
def c3docB : Document :=
  ⟨['b'], ['t', 'b'], ['x', ' ', 'o', 'l', 'd'], .unknown,
   [⟨['s', 'b'], ['c', 'b'], 13 / 10⟩], some ("2024-09-07T00:00:00".toList)⟩

/-- Recent, weaker match (base weight 1, ingested 1 day before the
query), inserted into the store second. -/
def c3docA : Document :=
  ⟨['a'], ['t', 'a'], ['x', ' ', 'n', 'e', 'w'], .unknown,
   [⟨['s', 'a'], ['c', 'a'], 1⟩], some ("2025-10-11T00:00:00".toList)⟩

/-- A section whose block ("\n## a\nb\n") is 8 characters long. -/
def c5pre : Section := ⟨['a'], ['b'], 1⟩

/-- The first section that no longer fits a budget of 10. -/
def c5s : Section := ⟨['c'], ['d'], 1⟩

/-- A ranked-later section that packing must never reach. -/
def c5post : Section := ⟨['e'], ['f'], 1⟩

/-- Weight-3 section, document order first. -/
def c7s1 : Section := ⟨['o', 'n', 'e'], ['a', 'l'], 3⟩

/-- Weight-1 section, document order second. -/
def c7s2 : Section := ⟨['t', 'w', 'o'], ['b', 'e'], 1⟩

/-- Weight-2 section, document order third. -/
def c7s3 : Section := ⟨['t', 'h', 'r', 'e', 'e'], ['g', 'a'], 2⟩

/-- Document with section weights [3, 1, 2] in document order. -/
def c7doc : Document := ⟨['d', '7'], ['t'], ['c'], .unknown, [c7s1, c7s2, c7s3], none⟩

/-! ### Helper lemmas -/

/-- The empty query is a substring of every string. -/
lemma containsSub_nil (hay : List Char) : containsSub [] hay = true := by
  cases hay <;> simp [containsSub, List.isPrefixOf]

/-- Every document matches the empty query. -/
lemma docMatches_nil (d : Document) : docMatches [] d = true := by
  simp [docMatches, lower, containsSub_nil]

/-- Writing back the very document that lookup found leaves the store
unchanged. -/
lemma updateDoc_self (docs : List Document) (documentId : List Char)
    (d : Document) (h : getDoc docs documentId = some d) :
    updateDoc docs documentId d = docs := by
  induction docs with
  | nil => simp [getDoc] at h
  | cons x ds ih =>
    by_cases hx : x.id == documentId
    · have hxd : x = d := by
        simpa [getDoc, List.find?, hx] using h
      subst hxd
      simp [updateDoc, hx]
    · have hrec : getDoc ds documentId = some d := by
        simpa [getDoc, List.find?, hx] using h
      simp [updateDoc, hx, ih hrec]

/-- The packed context never exceeds the character budget by more than
the ellipsis. -/
lemma pack_length_le (ss : List Section) :
    ∀ limit : ℕ, (pack limit ss).1.length ≤ limit + 3 := by
  induction ss with
  | nil => intro limit; simp [pack]
  | cons s rest ih =>
    intro limit
    simp only [pack]
    by_cases h : (blockOf s).length > limit
    · rw [if_pos h]
      by_cases h100 : limit > 100
      · rw [if_pos h100]
        simp only [List.length_append, List.length_take, ellipsis,
          List.length_cons, List.length_nil]
        omega
      · rw [if_neg h100]; simp
    · rw [if_neg h]
      simp only [List.length_append]
      have := ih (limit - (blockOf s).length)
      omega

/-- Inserting a section by `orderedInsert wge` never moves it past an
equal-weight section: the sublist at any fixed weight is the same as if
the section were simply prepended.  (The elements skipped on the way in
are exactly those of strictly larger weight.) -/
lemma filter_key_orderedInsert (k : ℚ) (x : Section) (l : List Section) :
    (List.orderedInsert wge x l).filter (fun s => decide (s.weight = k)) =
      ((x :: l).filter (fun s => decide (s.weight = k))) := by
  induction l with
  | nil => rfl
  | cons y ys ih =>
    by_cases hxy : wge x y
    · simp [List.orderedInsert, hxy]
    · have hlt : x.weight < y.weight := not_le.mp hxy
      simp only [List.orderedInsert, if_neg hxy]
      by_cases hy : y.weight = k
      · have hx : ¬ x.weight = k := by
          intro hxk
          rw [hxk, hy] at hlt
          exact lt_irrefl k hlt
        simp [List.filter_cons, hy, hx, ih]
      · simp [List.filter_cons, hy, ih]

/-- The stable descending sort preserves, weight class by weight class,
the original relative order of equal-weight sections. -/
lemma filter_key_insertionSort (k : ℚ) (l : List Section) :
    (sortByWeightDesc l).filter (fun s => decide (s.weight = k)) =
      l.filter (fun s => decide (s.weight = k)) := by
  induction l with
  | nil => rfl
  | cons x xs ih =>
    simp only [sortByWeightDesc, List.insertionSort] at ih ⊢
    rw [filter_key_orderedInsert, List.filter_cons, List.filter_cons, ih]

/-! ### Claim theorems -/

/-- Claim C4: for every store, document id, query and max_tokens, the
character length of the context returned by extract_context is at most
max_tokens × 4 plus the 3-character ellipsis marker. -/
theorem extract_context_length_le (docs : List Document)
    (documentId query : List Char) (mt : ℕ) :
    ((extractContext docs documentId query mt).1.1).length ≤ mt * 4 + 3 := by
  cases hg : getDoc docs documentId with
  | none => simp [extractContext, hg]
  | some d =>
    simp only [extractContext, hg, extractContextDoc]
    exact pack_length_le _ (mt * 4)

/-- Claim C8: extract_context on an id absent from the store returns
the empty context together with the error-marker metadata, leaves the
store unchanged, and (being a total function) raises nothing, for every
query and max_tokens. -/
theorem unknown_id_returns_error (docs : List Document)
    (documentId query : List Char) (mt : ℕ)
    (h : getDoc docs documentId = none) :
    extractContext docs documentId query mt =
      (([], Metadata.fault ("Document not found".toList)), docs) := by
  simp [extractContext, h]

/-- Witness for C8 at a concrete absent id. -/
theorem unknown_id_returns_error_witness :
    getDoc [] ['x'] = none ∧
      extractContext [] ['x'] ['y'] 5 =
        (([], Metadata.fault ("Document not found".toList)), []) :=
  ⟨rfl, unknown_id_returns_error [] ['x'] ['y'] 5 rfl⟩

/-- Claim C9: search with the empty query returns every stored
document, in store insertion order. -/
theorem search_empty_query_returns_all (docs : List Document) :
    searchStore [] docs = docs := by
  rw [searchStore, List.filter_eq_self]
  intro d _
  exact docMatches_nil d

/-- Claim C10: extract_context with the empty query is a pure read:
the store (hence every document and every section weight in it) is
exactly what it was before the call. -/
theorem extract_empty_query_pure (docs : List Document)
    (documentId : List Char) (mt : ℕ) :
    (extractContext docs documentId [] mt).2 = docs := by
  cases hg : getDoc docs documentId with
  | none => simp [extractContext, hg]
  | some d =>
    simp only [extractContext, hg, extractContextDoc, List.isEmpty_nil,
      if_pos]
    exact updateDoc_self docs documentId d hg

/-- Claim C2 counterexample: in the boost-tie scenario the code does
not order the tied sections by document order.  Document c2doc holds,
in document order, the matching section "a" (weight 1) and then the
non-matching section "b" (weight 3/2); the query boosts "a" to an
exact tie at 3/2, yet the output ranks "b" first, because the re-sort
is stable with respect to the first weight-sorted list, not the
document order. -/
theorem tie_order_counterexample :
    c2doc.sections.map Section.title = [['a'], ['b']] ∧
    (extractContextDoc c2doc ['q'] 100).1.2 =
      Metadata.ok ['d', '2'] .unknown [['b'], ['a']]
        [(['b'], 3 / 2), (['a'], 3 / 2)] 2 2 ∧
    ([['b'], ['a']] : List (List Char)) ≠ [['a'], ['b']] := by
  have hA : containsSub (lower ['q']) (lower ['q', ' ', 's']) = true := by decide
  have hB : containsSub (lower ['q']) (lower ['z', 'z']) = false := by decide
  refine ⟨by decide, ?_, by decide⟩
  norm_num [extractContextDoc, rankSections, sortByWeightDesc, boostList,
    hA, hB, pack, blockOf, wge, ellipsis, c2doc, c2secA, c2secB]

/-- Claim C2 (amended): the ranked list is sorted descending by
effective score, and sections of equal effective score appear in the
order of the reference list `rankReference` — the document order when
the query is empty, and the boosted first-pass ranking when a query
boost ran; ties created by a boost are therefore broken by pre-boost
rank, not by document order. -/
theorem rank_sorted_and_stable (query : List Char) (ss : List Section) :
    List.Sorted wge (rankSections query ss) ∧
    ∀ k : ℚ, (rankSections query ss).filter (fun s => decide (s.weight = k)) =
      (rankReference query ss).filter (fun s => decide (s.weight = k)) := by
  constructor
  · by_cases hq : query.isEmpty <;>
      simp only [rankSections, hq, if_true, if_false, Bool.false_eq_true,
        sortByWeightDesc] <;>
      exact List.sorted_insertionSort wge _
  · intro k
    by_cases hq : query.isEmpty <;>
      simp only [rankSections, rankReference, hq, if_true, if_false,
        Bool.false_eq_true] <;>
      exact filter_key_insertionSort k _

/-- Claim C7: on the document with section weights [3, 1, 2] in
document order, an empty query and a budget ample for all three
blocks, extract_context returns the blocks concatenated in weight
order 3, 2, 1, and the metadata lists the titles in that order. -/
theorem rank_order_concrete :
    (extractContextDoc c7doc [] 100).1.1 =
      blockOf c7s1 ++ (blockOf c7s3 ++ blockOf c7s2) ∧
    (extractContextDoc c7doc [] 100).1.2 =
      Metadata.ok ['d', '7'] .unknown
        [c7s1.title, c7s3.title, c7s2.title]
        [(c7s1.title, 3), (c7s3.title, 2), (c7s2.title, 1)] 3 3 := by
  decide

/-- Claim C3 counterexample: both documents of the time-decay example
match the query "x", but search returns them in store insertion order
— the older, stronger match c3docB first — because the function takes
no decay arguments and computes no score, so the recent document
c3docA is not returned ahead of it. -/
theorem search_no_decay_counterexample :
    searchStore ['x'] [c3docB, c3docA] = [c3docB, c3docA] ∧
    c3docB ≠ c3docA := by
  have hB : docMatches ['x'] c3docB = true := by decide
  have hA : docMatches ['x'] c3docA = true := by decide
  constructor
  · simp [searchStore, List.filter, hB, hA]
  · intro h
    have : c3docB.id = c3docA.id := by rw [h]
    simp [c3docB, c3docA] at this

/-- Claim C3 (amended): search takes only the query; it returns
exactly the documents matching the case-insensitive substring test
(against content, title, or any section title), as a sublist of the
store, hence in insertion order and with no re-ranking of any kind. -/
theorem search_filters_in_order (query : List Char) (docs : List Document) :
    (searchStore query docs).Sublist docs ∧
    ∀ d ∈ docs, (d ∈ searchStore query docs ↔ docMatches query d = true) := by
  constructor
  · exact List.filter_sublist docs
  · intro d hd
    simp [searchStore, List.mem_filter, hd]

/-- Witness for C3 (amended) at the concrete two-document store. -/
theorem search_filters_in_order_witness :
    (searchStore ['x'] [c3docB, c3docA]).Sublist [c3docB, c3docA] ∧
    (c3docA ∈ searchStore ['x'] [c3docB, c3docA] ↔
      docMatches ['x'] c3docA = true) :=
  ⟨(search_filters_in_order ['x'] [c3docB, c3docA]).1,
   (search_filters_in_order ['x'] [c3docB, c3docA]).2 c3docA (by simp)⟩

/-- Claim C5: packing stops at the first ranked section whose block
does not fit the remaining budget: when the sections before it fit
cumulatively and its own block overflows, the output is exactly the
fitting prefix, plus a truncated block with ellipsis and its recorded
title when strictly more than 100 characters of budget remain and
nothing partial otherwise — and the result does not depend on the
sections ranked after the overflowing one. -/
theorem pack_stops_at_first_overflow (limit : ℕ) (pre : List Section)
    (s : Section) (post : List Section)
    (hpre : ((pre.map (fun p => (blockOf p).length)).sum ≤ limit))
    (hs : (blockOf s).length > limit - (pre.map (fun p => (blockOf p).length)).sum) :
    pack limit (pre ++ s :: post) =
      ((pre.map blockOf).flatten ++
        (if limit - (pre.map (fun p => (blockOf p).length)).sum > 100 then
          (blockOf s).take (limit - (pre.map (fun p => (blockOf p).length)).sum) ++
            ellipsis
        else []),
       pre.map Section.title ++
        (if limit - (pre.map (fun p => (blockOf p).length)).sum > 100 then [s.title]
        else [])) := by
  induction pre generalizing limit with
  | nil =>
    simp only [List.map_nil, List.sum_nil, Nat.sub_zero, List.nil_append,
      List.flatten_nil, List.cons_append] at hs ⊢
    simp only [pack, if_pos hs]
    by_cases h100 : limit > 100
    · simp [if_pos h100]
    · simp [if_neg h100]
  | cons p pre' ih =>
    simp only [List.map_cons, List.sum_cons] at hpre hs ⊢
    have hple : ¬ ((blockOf p).length > limit) := by omega
    simp only [List.cons_append, pack, if_neg hple, List.append_eq]
    have h1 : (pre'.map (fun x => (blockOf x).length)).sum ≤
        limit - (blockOf p).length := by omega
    have h2 : (blockOf s).length >
        (limit - (blockOf p).length) -
          (pre'.map (fun x => (blockOf x).length)).sum := by omega
    rw [ih (limit - (blockOf p).length) h1 h2]
    have heq : limit - (blockOf p).length -
          (pre'.map (fun x => (blockOf x).length)).sum =
        limit - ((blockOf p).length +
          (pre'.map (fun x => (blockOf x).length)).sum) := by omega
    rw [heq]
    simp [List.flatten_cons, List.append_assoc]

/-- Witness for C5: budget 10, one 8-character block fits, the next
8-character block overflows with only 2 characters left (≤ 100), so
nothing partial is added and the ranked-later section is ignored. -/
theorem pack_stops_at_first_overflow_witness :
    (((([c5pre].map (fun p => (blockOf p).length)).sum ≤ 10)) ∧
      ((blockOf c5s).length >
        10 - ([c5pre].map (fun p => (blockOf p).length)).sum)) ∧
    pack 10 ([c5pre] ++ c5s :: [c5post]) =
      (([c5pre].map blockOf).flatten ++
        (if 10 - ([c5pre].map (fun p => (blockOf p).length)).sum > 100 then
          (blockOf c5s).take
              (10 - ([c5pre].map (fun p => (blockOf p).length)).sum) ++ ellipsis
        else []),
       [c5pre].map Section.title ++
        (if 10 - ([c5pre].map (fun p => (blockOf p).length)).sum > 100 then
          [c5s.title]
        else [])) :=
  ⟨⟨by decide, by decide⟩,
   pack_stops_at_first_overflow 10 [c5pre] c5s [c5post] (by decide) (by decide)⟩

/-- Claim C6: with a non-empty query matching exactly the first
section of a two-section document, that section's score is multiplied
by 1.5 and the other is untouched; the matching section ranks first
precisely when the non-matching weight v is below w × 1.5, and the
non-matching section keeps the first rank when v exceeds w × 1.5. -/
theorem query_boost_direction (sT sC tT tC : List Char) (w v : ℚ)
    (query : List Char) (hq : query ≠ [])
    (hs : containsSub (lower query) (lower sC) = true)
    (ht : containsSub (lower query) (lower tC) = false) :
    boostList query [⟨sT, sC, w⟩, ⟨tT, tC, v⟩] =
        [⟨sT, sC, w * 1.5⟩, ⟨tT, tC, v⟩] ∧
    (v < w * 1.5 →
      (rankSections query [⟨sT, sC, w⟩, ⟨tT, tC, v⟩]).map
          (fun s => (s.title, s.weight)) = [(sT, w * 1.5), (tT, v)]) ∧
    (w * 1.5 < v →
      (rankSections query [⟨sT, sC, w⟩, ⟨tT, tC, v⟩]).map
          (fun s => (s.title, s.weight)) = [(tT, v), (sT, w * 1.5)]) := by
  have hqe : query.isEmpty = false := by
    cases query with
    | nil => exact absurd rfl hq
    | cons a l => rfl
  refine ⟨?_, ?_, ?_⟩
  · simp [boostList, hs, ht]
  · intro hlt
    by_cases hvw : v ≤ w
    · have h2 : v ≤ w * 1.5 := le_of_lt hlt
      simp [rankSections, hqe, sortByWeightDesc, List.insertionSort,
        List.orderedInsert, wge, boostList, hs, ht, hvw, h2]
    · have h2 : ¬ (w * 1.5 ≤ v) := not_le.mpr hlt
      simp [rankSections, hqe, sortByWeightDesc, List.insertionSort,
        List.orderedInsert, wge, boostList, hs, ht, hvw, h2]
  · intro hlt
    by_cases hvw : v ≤ w
    · have h2 : ¬ (v ≤ w * 1.5) := not_le.mpr hlt
      simp [rankSections, hqe, sortByWeightDesc, List.insertionSort,
        List.orderedInsert, wge, boostList, hs, ht, hvw, h2]
    · have h2 : w * 1.5 ≤ v := le_of_lt hlt
      simp [rankSections, hqe, sortByWeightDesc, List.insertionSort,
        List.orderedInsert, wge, boostList, hs, ht, hvw, h2]

/-- Witness for C6 at the spec example: weights 1 (matching) and 7/5,
boosted 3/2 beats 7/5 so the matching section ranks first. -/
theorem query_boost_direction_witness :
    (7 / 5 : ℚ) < 1 * 1.5 ∧
    (rankSections ['m'] [⟨['s'], ['m'], 1⟩, ⟨['t'], ['z'], 7 / 5⟩]).map
        (fun s => (s.title, s.weight)) =
      [(['s'], (1 : ℚ) * 1.5), (['t'], 7 / 5)] :=
  ⟨by norm_num,
   (query_boost_direction ['s'] ['m'] ['t'] ['z'] 1 (7 / 5) ['m']
      (by decide) (by decide) (by decide)).2.1 (by norm_num)⟩

/-- Claim C1 exhibit (code bug): after extract_context on document
"d" with the matching query "hi", the weight stored in the store is
3/2, not the original 1 — the query boost is persisted into the
stored document — and a repeat call on the resulting store returns
different metadata (the weight compounds to 9/4), so repetition is
not idempotent. -/
theorem boost_persisted_into_store :
    (extractContext [c1doc] ['d'] ['h', 'i'] 2000).2.map
        (fun d => d.sections.map Section.weight) = [[3 / 2]] ∧
    ((3 : ℚ) / 2) ≠ 1 ∧
    (extractContext ((extractContext [c1doc] ['d'] ['h', 'i'] 2000).2)
        ['d'] ['h', 'i'] 2000).1.2 ≠
      (extractContext [c1doc] ['d'] ['h', 'i'] 2000).1.2 := by
  have hc : containsSub (lower ['h', 'i']) (lower ['h', 'i']) = true := by
    decide
  refine ⟨?_, by norm_num, ?_⟩
  · norm_num [extractContext, extractContextDoc, getDoc, updateDoc,
      rankSections, sortByWeightDesc, boostList, hc, c1doc, c1sec]
  · norm_num [extractContext, extractContextDoc, getDoc, updateDoc,
      rankSections, sortByWeightDesc, boostList, hc, c1doc, c1sec,
      pack, blockOf, ellipsis, wge, Metadata.ok.injEq]

end CaaS
